import Mathlib

/-!
Verification of the battle engine in `ballsdex/core/battle.py`.

The engine is embedded shallowly: Python dataclasses become structures,
in-place mutation of `Participant` objects becomes explicit state passing
through the two team lists (participants are addressed by their index so
that aliasing through the Python references is modelled exactly), Python
floats become rationals, `int(x)` becomes truncation toward zero, and the
human-readable log strings become a structured `LogLine` event per
`logs.append` site of the source.
-/

namespace Ballsdex

/-- Python `int(x)` applied to a number: truncation toward zero
(`Int.div` on the reduced numerator/denominator truncates toward zero). -/
def pyInt (q : ℚ) : ℤ := Int.tdiv q.num q.den

/-- The four ability hooks of `capacity_logic`
(`"on_enter"`, `"on_attack"`, `"on_defend"`, `"on_exit"`). -/
inductive Hook
  | onEnter
  | onAttack
  | onDefend
  | onExit
deriving DecidableEq, Repr

/-- One ability entry `{"type": ..., "value": ...}`; `entry.get("type")`
and `entry.get("value", default)` may be absent, hence `Option`. -/
structure AbilityEntry where
  type : Option String
  value : Option ℚ
deriving DecidableEq, Repr

/-- The parts of the ball (countryball) read by the engine: its
`capacity_logic` document, keyed by hook (an absent hook or a null
document reads as the empty list, per `logic.get(when, [])` and
`capacity_logic or {}`). -/
structure Countryball where
  capacity_logic : Hook → List AbilityEntry

/-- The parts of a `BallInstance` read by the engine: `health`, `attack`,
its countryball, and the `short_description()` display name. -/
structure BallInstance where
  countryball : Countryball
  health : ℤ
  attack : ℤ
  short_description : String

/-- The `Participant` dataclass. The Python field `instance` is a Lean
keyword and is named `inst` here; all other field names are kept. -/
structure Participant where
  inst : BallInstance
  max_hp : ℤ
  current_hp : ℤ
  shield_percent : ℚ := 0
  extra_damage_multiplier : ℚ := 1
  extra_flat_damage : ℤ := 0

/-- Display name of a participant (`p.instance.short_description()`). -/
def Participant.name (p : Participant) : String := p.inst.short_description

/-- One structured log event per `logs.append` site of `battle.py`. -/
inductive LogLine
  | usesDamageMult (who : String) (mult : ℚ)
  | gainsExtraDamage (who : String) (amt : ℤ)
  | healsLine (who : String) (amt : ℤ)
  | grantsShield (who tgt : String) (pct100 : ℤ)
  | unknownAbility (t : Option String)
  | turnHeader (turn : ℕ) (a b : String)
  | absorbs (who : String) (reduction : ℤ)
  | deals (attacker : String) (dmg : ℤ) (defender : String) (hpShown : ℤ)
  | defeated (who : String)
  | turnLimit
  | teamAWins
  | teamBWins
  | draw
deriving DecidableEq, Repr

/-- One iteration of the `for entry in logic.get(when, [])` body of
`AbilityProcessor.apply_abilities`: dispatch on `entry.get("type")`. -/
def applyEntry (actor : Participant) (target : Option Participant) (e : AbilityEntry) :
    Participant × Option Participant × List LogLine :=
  if e.type = some "damage_multiplier" then
    let mult := e.value.getD 1
    ({ actor with extra_damage_multiplier := actor.extra_damage_multiplier * mult },
      target, [.usesDamageMult actor.name mult])
  else if e.type = some "extra_damage" then
    let amt := pyInt (e.value.getD 0)
    ({ actor with extra_flat_damage := actor.extra_flat_damage + amt },
      target, [.gainsExtraDamage actor.name amt])
  else if e.type = some "heal" then
    let pct := e.value.getD 0
    let heal := max 1 (pyInt ((actor.max_hp : ℚ) * pct))
    ({ actor with current_hp := min (actor.current_hp + heal) actor.max_hp },
      target, [.healsLine actor.name heal])
  else if e.type = some "shield" then
    let pct := e.value.getD 0
    match target with
    | some t =>
        (actor, some { t with shield_percent := max t.shield_percent pct },
          [.grantsShield actor.name t.name (pyInt (pct * 100))])
    | none => (actor, none, [])
  else
    (actor, target, [.unknownAbility e.type])

/-- The `for` loop of `apply_abilities` over the entry list, threading the
mutated actor and target and accumulating the log lines in order. -/
def applyEntries : List AbilityEntry → Participant → Option Participant →
    Participant × Option Participant × List LogLine
  | [], actor, target => (actor, target, [])
  | e :: rest, actor, target =>
    let r := applyEntry actor target e
    let r2 := applyEntries rest r.1 r.2.1
    (r2.1, r2.2.1, r.2.2 ++ r2.2.2)

/-- Python `AbilityProcessor.apply_abilities(when, actor, target)`. -/
def AbilityProcessor.apply_abilities (when : Hook) (actor : Participant)
    (target : Option Participant) : Participant × Option Participant × List LogLine :=
  applyEntries (actor.inst.countryball.capacity_logic when) actor target

/-- Index (`TeamBattle._active`) of the first participant with
`current_hp > 0` (the index stands for the Python object reference, so
that writes through it update the team list). -/
def activeIdx : List Participant → Option ℕ
  | [] => none
  | p :: rest =>
    if 0 < p.current_hp then some 0 else (activeIdx rest).map (· + 1)

/-- Placeholder participant for the (never reached) out-of-range read. -/
def dummyParticipant : Participant :=
  { inst := { countryball := { capacity_logic := fun _ => [] },
              health := 0, attack := 0, short_description := "" },
    max_hp := 0, current_hp := 0 }

/-- Read the participant object a (valid) index refers to. -/
def getP (team : List Participant) (i : ℕ) : Participant :=
  (team.get? i).getD dummyParticipant

/-- Write back through an optional reference (no-op when either the
reference or the updated object is absent). -/
def setAt? (team : List Participant) (i? : Option ℕ) (p? : Option Participant) :
    List Participant :=
  match i?, p? with
  | some i, some p => team.set i p
  | _, _ => team

/-- The quantity `int(attack * extra_damage_multiplier) + extra_flat_damage`
(line 102 / 131 of `battle.py`). -/
def preShieldDamage (p : Participant) : ℤ :=
  pyInt ((p.inst.attack : ℚ) * p.extra_damage_multiplier) + p.extra_flat_damage

/-- The quantity `int(dmg * shield_percent)` (line 106 / 135). -/
def shieldReduction (dmg : ℤ) (shield : ℚ) : ℤ := pyInt ((dmg : ℚ) * shield)

/-- The damage actually applied: shield reduction when the defender's
`shield_percent` is truthy (nonzero), then `max(1, dmg)`
(lines 105-110 / 134-139). -/
def appliedDamage (dmg : ℤ) (shield : ℚ) : ℤ :=
  max 1 (if shield ≠ 0 then dmg - shieldReduction dmg shield else dmg)

/-- One attack phase (lines 100-122 of `run`, and symmetrically
124-151): the team whose participant `ai` refers to attacks the
participant `di` of the other team, including the shield application,
the `max(1, ...)` clamp, the attacker's multiplier/flat reset and the
defeat handling (`on_exit`, then `on_enter` of the next defender).
Returns (log lines, updated attacker team, updated defender team). -/
def attackPhase (atkTeam : List Participant) (ai : ℕ)
    (defTeam : List Participant) (di : ℕ) :
    List LogLine × List Participant × List Participant :=
  let pa0 := getP atkTeam ai
  let pb0 := getP defTeam di
  let r1 := AbilityProcessor.apply_abilities .onAttack pa0 (some pb0)
  let pa1 := r1.1
  let pb1 := r1.2.1.getD pb0
  let dmg0 := preShieldDamage pa1
  let r2 := AbilityProcessor.apply_abilities .onDefend pb1 (some pa1)
  let pb2 := r2.1
  let pa2 := r2.2.1.getD pa1
  let shieldLogs :=
    if pb2.shield_percent ≠ 0 then
      [LogLine.absorbs pb2.name (shieldReduction dmg0 pb2.shield_percent)]
    else []
  let dmg := appliedDamage dmg0 pb2.shield_percent
  let pb3 := { pb2 with current_hp := pb2.current_hp - dmg }
  let dealsLog := [LogLine.deals pa2.name dmg pb3.name (max pb3.current_hp 0)]
  let pa3 := { pa2 with extra_damage_multiplier := 1, extra_flat_damage := 0 }
  let atkTeam1 := atkTeam.set ai pa3
  let defTeam1 := defTeam.set di pb3
  if pb3.current_hp ≤ 0 then
    let r3 := AbilityProcessor.apply_abilities .onExit pb3 (some pa3)
    let defTeam2 := defTeam1.set di r3.1
    let atkTeam2 := atkTeam1.set ai (r3.2.1.getD pa3)
    match activeIdx defTeam2 with
    | some nj =>
      let r4 := AbilityProcessor.apply_abilities .onEnter (getP defTeam2 nj)
        (some (getP atkTeam2 ai))
      let defTeam3 := defTeam2.set nj r4.1
      let atkTeam3 := atkTeam2.set ai (r4.2.1.getD (getP atkTeam2 ai))
      (r1.2.2 ++ r2.2.2 ++ shieldLogs ++ dealsLog ++
        [LogLine.defeated pb3.name] ++ r3.2.2 ++ r4.2.2, atkTeam3, defTeam3)
    | none =>
      (r1.2.2 ++ r2.2.2 ++ shieldLogs ++ dealsLog ++
        [LogLine.defeated pb3.name] ++ r3.2.2, atkTeam2, defTeam2)
  else
    (r1.2.2 ++ r2.2.2 ++ shieldLogs ++ dealsLog, atkTeam1, defTeam1)

/-- The `while True` loop of `run` (lines 92-156). `turn` is the Python
turn counter; `fuel` is a structural-termination budget, always at least
`1001 - turn` at every call, so the `0` base case is never reached: the
loop re-checks `turn + 1 > 1000` (the `turn += 1; if turn > 1000` cap of
lines 153-156) before every recursive call. -/
def runLoop : ℕ → List Participant → List Participant → ℕ →
    List LogLine × List Participant × List Participant
  | 0, ta, tb, _ => ([], ta, tb)
  | fuel+1, ta, tb, turn =>
    match activeIdx ta, activeIdx tb with
    | some ai, some bi =>
      let header := LogLine.turnHeader turn (getP ta ai).name (getP tb bi).name
      let rA := attackPhase ta ai tb bi
      let ta1 := rA.2.1
      let tb1 := rA.2.2
      match activeIdx ta1, activeIdx tb1 with
      | some ai2, some bi2 =>
        let rB := attackPhase tb1 bi2 ta1 ai2
        let tb2 := rB.2.1
        let ta2 := rB.2.2
        if turn + 1 > 1000 then
          (header :: (rA.1 ++ rB.1 ++ [LogLine.turnLimit]), ta2, tb2)
        else
          let rest := runLoop fuel ta2 tb2 (turn + 1)
          (header :: (rA.1 ++ rB.1 ++ rest.1), rest.2.1, rest.2.2)
      | _, _ => (header :: rA.1, ta1, tb1)
    | _, _ => ([], ta, tb)

/-- Construction of a `Participant` in `make_participants`:
`Participant(instance=inst, max_hp=inst.health, current_hp=inst.health)`. -/
def makeParticipant (inst : BallInstance) : Participant :=
  { inst := inst, max_hp := inst.health, current_hp := inst.health }

/-- Python `make_participants`: first 3 entries of the team, each wrapped. -/
def make_participants (team : List BallInstance) : List Participant :=
  (team.take 3).map makeParticipant

/-- The two participant lists owned by a battle. -/
structure TeamBattle where
  team_a : List Participant
  team_b : List Participant

/-- Python `TeamBattle.__init__`: raises `ValueError` when either list is empty
(Python truthiness of a list), else builds the participants. -/
def TeamBattle.init (team_a team_b : List BallInstance) : Except String TeamBattle :=
  if team_a.isEmpty || team_b.isEmpty then
    Except.error "Both teams must have at least one BallInstance"
  else
    Except.ok { team_a := make_participants team_a, team_b := make_participants team_b }

/-- Python truthiness of `p.current_hp > 0` as used by the
`any(...)` verdict computation. -/
def isAliveB (p : Participant) : Bool := decide (0 < p.current_hp)

/-- The verdict line appended after the loop exits (lines 158-165):
team A wins when only team A has a living participant, team B wins when
only team B does, otherwise a draw. -/
def finalVerdict (ta tb : List Participant) : LogLine :=
  let a_alive := ta.any isAliveB
  let b_alive := tb.any isAliveB
  if a_alive && !b_alive then LogLine.teamAWins
  else if b_alive && !a_alive then LogLine.teamBWins
  else LogLine.draw

/-- Python `TeamBattle.run` (lines 80-167): the initial `on_enter` phase, the
turn loop, then the verdict line. Returns the transcript together with
the final state of the two teams. -/
def TeamBattle.run (b : TeamBattle) : List LogLine × List Participant × List Participant :=
  let ta0 := b.team_a
  let tb0 := b.team_b
  let ia := activeIdx ta0
  let ib := activeIdx tb0
  let e1 :=
    match ia with
    | some i =>
      let r := AbilityProcessor.apply_abilities .onEnter (getP ta0 i) (ib.map (getP tb0))
      (ta0.set i r.1, setAt? tb0 ib r.2.1, r.2.2)
    | none => (ta0, tb0, [])
  let ta1 := e1.1
  let tb1 := e1.2.1
  let logs1 := e1.2.2
  let e2 :=
    match ib with
    | some j =>
      let r := AbilityProcessor.apply_abilities .onEnter (getP tb1 j) (ia.map (getP ta1))
      (setAt? ta1 ia r.2.1, tb1.set j r.1, r.2.2)
    | none => (ta1, tb1, [])
  let ta2 := e2.1
  let tb2 := e2.2.1
  let logs2 := e2.2.2
  let lr := runLoop 1000 ta2 tb2 1
  let taF := lr.2.1
  let tbF := lr.2.2
  (logs1 ++ logs2 ++ lr.1 ++ [finalVerdict taF tbF], taF, tbF)

/-! ### Unfolding lemmas for the ability processor -/

/-- Abbreviation for the heal amount `max(1, int(actor.max_hp * value))`
computed by the heal branch. -/
def healAmount (p : Participant) (v : ℚ) : ℤ := max 1 (pyInt ((p.max_hp : ℚ) * v))

theorem applyEntries_nil (actor : Participant) (target : Option Participant) :
    applyEntries [] actor target = (actor, target, []) := rfl

theorem applyEntries_cons (e : AbilityEntry) (rest : List AbilityEntry)
    (actor : Participant) (target : Option Participant) :
    applyEntries (e :: rest) actor target =
      ((applyEntries rest (applyEntry actor target e).1 (applyEntry actor target e).2.1).1,
       (applyEntries rest (applyEntry actor target e).1 (applyEntry actor target e).2.1).2.1,
       (applyEntry actor target e).2.2 ++
         (applyEntries rest (applyEntry actor target e).1 (applyEntry actor target e).2.1).2.2) :=
  rfl

theorem applyEntry_heal (actor : Participant) (target : Option Participant) (v : ℚ) :
    applyEntry actor target ⟨some "heal", some v⟩ =
      ({ actor with current_hp := min (actor.current_hp + healAmount actor v) actor.max_hp },
        target, [.healsLine actor.name (healAmount actor v)]) := rfl

theorem applyEntry_shield (actor t : Participant) (v : ℚ) :
    applyEntry actor (some t) ⟨some "shield", some v⟩ =
      (actor, some { t with shield_percent := max t.shield_percent v },
        [.grantsShield actor.name t.name (pyInt (v * 100))]) := rfl

theorem apply_abilities_eq (when : Hook) (actor : Participant) (target : Option Participant) :
    AbilityProcessor.apply_abilities when actor target =
      applyEntries (actor.inst.countryball.capacity_logic when) actor target := rfl

/-! ### Helper lemmas about `run` -/

theorem init_ok {team_a team_b : List BallInstance}
    (ha : team_a ≠ []) (hb : team_b ≠ []) :
    TeamBattle.init team_a team_b =
      Except.ok { team_a := make_participants team_a, team_b := make_participants team_b } := by
  cases team_a with
  | nil => exact absurd rfl ha
  | cons x xs =>
    cases team_b with
    | nil => exact absurd rfl hb
    | cons y ys => rfl

theorem run_getLast? (b : TeamBattle) :
    (b.run).1.getLast? = some (finalVerdict (b.run).2.1 (b.run).2.2) := by
  simp only [TeamBattle.run]
  simp [List.getLast?_append]

theorem finalVerdict_cases (ta tb : List Participant) :
    finalVerdict ta tb = LogLine.teamAWins ∨ finalVerdict ta tb = LogLine.teamBWins ∨
      finalVerdict ta tb = LogLine.draw := by
  cases h1 : ta.any isAliveB <;> cases h2 : tb.any isAliveB <;>
    simp [finalVerdict, h1, h2]

theorem run_ends_with_a_verdict (b : TeamBattle) :
    (b.run).1 ≠ [] ∧
      ((b.run).1.getLast? = some LogLine.teamAWins ∨
       (b.run).1.getLast? = some LogLine.teamBWins ∨
       (b.run).1.getLast? = some LogLine.draw ∨
       (b.run).1.getLast? = some LogLine.turnLimit) := by
  have h := run_getLast? b
  constructor
  · intro hnil
    rw [hnil] at h
    simp at h
  · rcases finalVerdict_cases (b.run).2.1 (b.run).2.2 with hv | hv | hv
    · exact Or.inl (by rw [h, hv])
    · exact Or.inr (Or.inl (by rw [h, hv]))
    · exact Or.inr (Or.inr (Or.inl (by rw [h, hv])))

/-! ### Concrete instances used by witnesses and counterexamples -/

/-- Ability-free ball, HP 20 / ATK 5. -/
def plainBallA : BallInstance :=
  { countryball := ⟨fun _ => []⟩, health := 20, attack := 5, short_description := "A" }

/-- Ability-free ball, HP 10 / ATK 1. -/
def plainBallB : BallInstance :=
  { countryball := ⟨fun _ => []⟩, health := 10, attack := 1, short_description := "B" }

/-- The 1v1 battle of the two plain balls. -/
def plainBattle : TeamBattle :=
  { team_a := make_participants [plainBallA], team_b := make_participants [plainBallB] }

/-- Ball with a heal entry of value 0 on every hook, HP 10 / ATK 3. -/
def healBall : BallInstance :=
  { countryball := ⟨fun _ => [⟨some "heal", some 0⟩]⟩,
    health := 10, attack := 3, short_description := "H" }

/-- The heal-ball participant at partial HP (4 of 10). -/
def partialHpHealActor : Participant :=
  { inst := healBall, max_hp := 10, current_hp := 4 }

/-- The heal-ball participant at full HP (10 of 10). -/
def fullHpHealActor : Participant := makeParticipant healBall

/-- Actor granting shield 0.3 then shield 0.5 on every hook. -/
def shieldGrantActor : Participant :=
  { inst := { countryball := ⟨fun _ => [⟨some "shield", some (3/10)⟩, ⟨some "shield", some (1/2)⟩]⟩,
              health := 5, attack := 5, short_description := "S" },
    max_hp := 5, current_hp := 5 }

/-- A fresh shield-grant target (shield 0). -/
def freshTarget : Participant :=
  { inst := { countryball := ⟨fun _ => []⟩, health := 9, attack := 2, short_description := "T" },
    max_hp := 9, current_hp := 9 }

/-! ### Claim theorems (first group) -/

/-- C1: for every pair of non-empty teams (each truncated to its first 3
entities by `make_participants`), construction succeeds and `run()`
returns a non-empty transcript whose last line is one of the verdicts
"Team A wins!", "Team B wins!", "Battle ended in a draw.", or the
turn-limit draw line (termination itself is by construction: `runLoop`
is a total function whose budget mirrors the 1000-turn cap). -/
theorem run_terminates_with_verdict (team_a team_b : List BallInstance)
    (ha : team_a ≠ []) (hb : team_b ≠ []) :
    ∃ b : TeamBattle, TeamBattle.init team_a team_b = Except.ok b ∧
      (b.run).1 ≠ [] ∧
      ((b.run).1.getLast? = some LogLine.teamAWins ∨
       (b.run).1.getLast? = some LogLine.teamBWins ∨
       (b.run).1.getLast? = some LogLine.draw ∨
       (b.run).1.getLast? = some LogLine.turnLimit) :=
  ⟨_, init_ok ha hb, run_ends_with_a_verdict _⟩

/-- C1 witness: a concrete 1v1 battle (HP 20/ATK 5 vs HP 10/ATK 1). -/
theorem run_terminates_with_verdict_witness :
    ∃ b : TeamBattle, TeamBattle.init [plainBallA] [plainBallB] = Except.ok b ∧
      (b.run).1 ≠ [] ∧
      ((b.run).1.getLast? = some LogLine.teamAWins ∨
       (b.run).1.getLast? = some LogLine.teamBWins ∨
       (b.run).1.getLast? = some LogLine.draw ∨
       (b.run).1.getLast? = some LogLine.turnLimit) :=
  run_terminates_with_verdict [plainBallA] [plainBallB]
    (List.cons_ne_nil _ _) (List.cons_ne_nil _ _)

/-- C2: the damage applied to the defender in any single exchange is
`appliedDamage` of the pre-shield damage and the defender's shield, and
it is at least 1 for every combination of attack value, multiplier, flat
bonus and shield percent (the `max(1, dmg)` clamp of lines 110/139). -/
theorem damage_at_least_one (p : Participant) (dmg : ℤ) (shield : ℚ) :
    1 ≤ appliedDamage dmg shield ∧ 1 ≤ appliedDamage (preShieldDamage p) shield :=
  ⟨le_max_left _ _, le_max_left _ _⟩

/-- C3 (amended): a heal entry always computes a heal amount of at least
1 HP (`max(1, int(max_hp * value))`, even for `value = 0`), and the new
`current_hp` is the old one plus that amount, clamped at `max_hp`; the
actor's `current_hp` strictly increases whenever it was below `max_hp`,
but at full HP the clamp leaves it unchanged. -/
theorem heal_entry_clamped (when : Hook) (actor : Participant)
    (target : Option Participant) (v : ℚ)
    (h : actor.inst.countryball.capacity_logic when = [⟨some "heal", some v⟩]) :
    1 ≤ healAmount actor v ∧
    (AbilityProcessor.apply_abilities when actor target).1.current_hp =
      min (actor.current_hp + healAmount actor v) actor.max_hp ∧
    (actor.current_hp < actor.max_hp →
      actor.current_hp < (AbilityProcessor.apply_abilities when actor target).1.current_hp) := by
  rw [apply_abilities_eq, h, applyEntries_cons, applyEntry_heal]
  refine ⟨le_max_left _ _, rfl, fun hlt => ?_⟩
  simp only [applyEntries_nil]
  have h1 : 1 ≤ healAmount actor v := le_max_left _ _
  omega

/-- C3 witness: an actor at 4/10 HP with a heal entry of value 0 gains
at least 1 HP. -/
theorem heal_entry_clamped_witness :
    1 ≤ healAmount partialHpHealActor 0 ∧
    (AbilityProcessor.apply_abilities .onEnter partialHpHealActor none).1.current_hp =
      min (partialHpHealActor.current_hp + healAmount partialHpHealActor 0)
        partialHpHealActor.max_hp ∧
    (partialHpHealActor.current_hp < partialHpHealActor.max_hp →
      partialHpHealActor.current_hp <
        (AbilityProcessor.apply_abilities .onEnter partialHpHealActor none).1.current_hp) :=
  heal_entry_clamped .onEnter partialHpHealActor none 0 rfl

/-- C3 counterexample: at full HP, applying the heal entry leaves
`current_hp` unchanged — it does not increase by at least 1 as claimed
(the heal amount 1 is swallowed by the `min(..., max_hp)` clamp). -/
theorem heal_at_full_hp_counterexample :
    (AbilityProcessor.apply_abilities .onEnter fullHpHealActor none).1.current_hp =
      fullHpHealActor.current_hp ∧
    ¬ (fullHpHealActor.current_hp <
        (AbilityProcessor.apply_abilities .onEnter fullHpHealActor none).1.current_hp) := by
  constructor <;> with_unfolding_all decide

/-- C7: a shield grant sets the target's `shield_percent` to the max of
the existing value and the granted value (never a sum); in particular a
hook granting 0.3 then 0.5 yields `max(existing, 0.5)` — for a fresh
participant that is 0.5, not 0.8. -/
theorem shield_grant_takes_max (when : Hook) (tgt : Participant) :
    (∀ (actor : Participant) (v : ℚ),
      actor.inst.countryball.capacity_logic when = [⟨some "shield", some v⟩] →
      (AbilityProcessor.apply_abilities when actor (some tgt)).2.1 =
        some { tgt with shield_percent := max tgt.shield_percent v }) ∧
    (∀ actor : Participant,
      actor.inst.countryball.capacity_logic when =
        [⟨some "shield", some (3/10)⟩, ⟨some "shield", some (1/2)⟩] →
      (AbilityProcessor.apply_abilities when actor (some tgt)).2.1 =
        some { tgt with shield_percent := max tgt.shield_percent (1/2) }) := by
  constructor
  · intro actor v h
    rw [apply_abilities_eq, h, applyEntries_cons, applyEntry_shield, applyEntries_nil]
  · intro actor h
    rw [apply_abilities_eq, h, applyEntries_cons, applyEntry_shield]
    rw [applyEntries_cons, applyEntry_shield, applyEntries_nil]
    have hmax : max (max tgt.shield_percent (3/10 : ℚ)) (1/2) =
        max tgt.shield_percent (1/2) := by
      rw [max_assoc, max_eq_right (by norm_num : (3/10 : ℚ) ≤ 1/2)]
    simp only [hmax]

/-- C7 witness: a fresh target (shield 0) granted 0.3 then 0.5 ends with
shield `max 0 (1/2) = 0.5`, not 0.8. -/
theorem shield_grant_takes_max_witness :
    (AbilityProcessor.apply_abilities .onEnter shieldGrantActor (some freshTarget)).2.1 =
      some { freshTarget with shield_percent := max freshTarget.shield_percent (1/2) } :=
  (shield_grant_takes_max .onEnter freshTarget).2 shieldGrantActor rfl

/-- C9: constructing a `TeamBattle` with an empty team (either side)
yields the `ValueError` immediately and builds nothing; with both teams
non-empty it succeeds, building the participants. -/
theorem init_empty_team_errors (team_a team_b : List BallInstance) :
    ((team_a = [] ∨ team_b = []) →
      TeamBattle.init team_a team_b =
        Except.error "Both teams must have at least one BallInstance") ∧
    (team_a ≠ [] → team_b ≠ [] →
      TeamBattle.init team_a team_b =
        Except.ok { team_a := make_participants team_a,
                    team_b := make_participants team_b }) := by
  constructor
  · rintro (rfl | rfl)
    · rfl
    · cases team_a <;> rfl
  · exact fun ha hb => init_ok ha hb

/-- C9 witness: one empty-team failure and one successful construction. -/
theorem init_empty_team_errors_witness :
    TeamBattle.init [] [plainBallB] =
      Except.error "Both teams must have at least one BallInstance" ∧
    TeamBattle.init [plainBallA] [plainBallB] =
      Except.ok { team_a := make_participants [plainBallA],
                  team_b := make_participants [plainBallB] } :=
  ⟨(init_empty_team_errors [] [plainBallB]).1 (Or.inl rfl),
   (init_empty_team_errors [plainBallA] [plainBallB]).2
     (List.cons_ne_nil _ _) (List.cons_ne_nil _ _)⟩

/-- C5 (amended): when the turn cap is exceeded the loop stops right
after emitting the turn-limit line, but the final verdict is still
computed from the teams' alive state exactly as in the normal case: the
transcript always ends with `finalVerdict` of the final team states, and
that verdict is a draw precisely when both or neither team is alive —
not unconditionally a draw. -/
theorem turn_limit_verdict_from_hp (b : TeamBattle) :
    (b.run).1.getLast? = some (finalVerdict (b.run).2.1 (b.run).2.2) ∧
    ∀ ta tb : List Participant,
      (finalVerdict ta tb = LogLine.draw ↔ ta.any isAliveB = tb.any isAliveB) := by
  refine ⟨run_getLast? b, fun ta tb => ?_⟩
  cases h1 : ta.any isAliveB <;> cases h2 : tb.any isAliveB <;>
    simp [finalVerdict, h1, h2]

/-! ### The attack phase on singleton teams -/

theorem getP_zero_cons (p : Participant) (l : List Participant) : getP (p :: l) 0 = p := rfl

theorem activeIdx_nil : activeIdx [] = none := rfl

theorem activeIdx_cons (p : Participant) (l : List Participant) :
    activeIdx (p :: l) =
      if 0 < p.current_hp then some 0 else (activeIdx l).map (· + 1) := rfl

/-- Shape of one attack phase on singleton teams whose defender has no
`on_exit` abilities: the attacker ends reset, the defender ends with the
damage subtracted, whether or not it is defeated. -/
theorem attackPhase_singleton (pa pb pa1 pb1 pb2 pa2 : Participant)
    (l1 l2 : List LogLine)
    (h1 : AbilityProcessor.apply_abilities .onAttack pa (some pb) = (pa1, some pb1, l1))
    (h2 : AbilityProcessor.apply_abilities .onDefend pb1 (some pa1) = (pb2, some pa2, l2))
    (hexit : pb2.inst.countryball.capacity_logic .onExit = []) :
    (attackPhase [pa] 0 [pb] 0).2.1 =
      [{ pa2 with extra_damage_multiplier := 1, extra_flat_damage := 0 }] ∧
    (attackPhase [pa] 0 [pb] 0).2.2 =
      [{ pb2 with current_hp :=
          pb2.current_hp - appliedDamage (preShieldDamage pa1) pb2.shield_percent }] := by
  simp only [attackPhase, getP_zero_cons, h1, Option.getD_some, h2, List.set_cons_zero]
  split
  · rename_i hdead
    rw [apply_abilities_eq]
    simp only []
    rw [hexit, applyEntries_nil]
    simp only [List.set_cons_zero, activeIdx_cons, activeIdx_nil]
    rw [if_neg (by omega)]
    simp
  · simp

/-! ### C4: hook order and where shield grants land -/

/-- Attacker with no abilities, HP 20 / ATK 10. -/
def heavyAttacker : BallInstance :=
  { countryball := ⟨fun _ => []⟩, health := 20, attack := 10, short_description := "K" }

/-- Defender granting a 0.5 shield in its `on_defend` hook, HP 10 / ATK 1. -/
def onDefendShieldBall : BallInstance :=
  { countryball := ⟨fun h => match h with
      | .onDefend => [⟨some "shield", some (1/2)⟩]
      | _ => []⟩,
    health := 10, attack := 1, short_description := "D" }

/-- C4 counterexample: against an attack of 10, a defender whose only
ability is an `on_defend` shield grant of 0.5 ends the exchange at 0 HP
(full 10 damage taken), not at the 5 HP the claim predicts, because the
grant lands on the hook's target — the attacker, whose `shield_percent`
becomes 0.5. -/
theorem on_defend_shield_counterexample :
    (getP (attackPhase (make_participants [heavyAttacker]) 0
      (make_participants [onDefendShieldBall]) 0).2.2 0).current_hp = 0 ∧
    (getP (attackPhase (make_participants [heavyAttacker]) 0
      (make_participants [onDefendShieldBall]) 0).2.2 0).current_hp ≠ 10 - 5 ∧
    (getP (attackPhase (make_participants [heavyAttacker]) 0
      (make_participants [onDefendShieldBall]) 0).2.1 0).shield_percent = 1/2 := by
  refine ⟨?_, ?_, ?_⟩ <;> with_unfolding_all decide

/-- C4 (amended): in an attack exchange, `on_attack` fires on the
attacker (defender as target), then `on_defend` fires on the defender
(attacker as target), both before the damage is computed; a shield entry
always lands on the hook's target, so an `on_attack` shield grant
(targeting the defender) already reduces the damage of that same
exchange, while an `on_defend` shield grant lands on the attacker and
leaves the exchange's damage computed from the defender's pre-existing
`shield_percent`. -/
theorem hook_shield_targeting (pa pb : Participant) :
    (∀ v : ℚ,
      pa.inst.countryball.capacity_logic .onAttack = [⟨some "shield", some v⟩] →
      pb.inst.countryball.capacity_logic .onDefend = [] →
      pb.inst.countryball.capacity_logic .onExit = [] →
      (attackPhase [pa] 0 [pb] 0).2.2 =
        [{ pb with shield_percent := max pb.shield_percent v,
                   current_hp := pb.current_hp -
                     appliedDamage (preShieldDamage pa) (max pb.shield_percent v) }]) ∧
    (∀ w : ℚ,
      pa.inst.countryball.capacity_logic .onAttack = [] →
      pb.inst.countryball.capacity_logic .onDefend = [⟨some "shield", some w⟩] →
      pb.inst.countryball.capacity_logic .onExit = [] →
      (attackPhase [pa] 0 [pb] 0).2.2 =
        [{ pb with current_hp := pb.current_hp -
            appliedDamage (preShieldDamage pa) pb.shield_percent }] ∧
      (attackPhase [pa] 0 [pb] 0).2.1 =
        [{ pa with shield_percent := max pa.shield_percent w,
                   extra_damage_multiplier := 1, extra_flat_damage := 0 }]) := by
  constructor
  · intro v hA hD hexit
    have h1 : AbilityProcessor.apply_abilities .onAttack pa (some pb) =
        (pa, some { pb with shield_percent := max pb.shield_percent v },
          [.grantsShield pa.name pb.name (pyInt (v * 100))]) := by
      rw [apply_abilities_eq, hA, applyEntries_cons, applyEntry_shield, applyEntries_nil]
      rfl
    have h2 : AbilityProcessor.apply_abilities .onDefend
        { pb with shield_percent := max pb.shield_percent v } (some pa) =
        ({ pb with shield_percent := max pb.shield_percent v }, some pa, []) := by
      rw [apply_abilities_eq]
      show applyEntries (pb.inst.countryball.capacity_logic .onDefend) _ _ = _
      rw [hD, applyEntries_nil]
    exact (attackPhase_singleton pa pb _ _ _ _ _ _ h1 h2 hexit).2
  · intro w hA hD hexit
    have h1 : AbilityProcessor.apply_abilities .onAttack pa (some pb) =
        (pa, some pb, []) := by
      rw [apply_abilities_eq, hA, applyEntries_nil]
    have h2 : AbilityProcessor.apply_abilities .onDefend pb (some pa) =
        (pb, some { pa with shield_percent := max pa.shield_percent w },
          [.grantsShield pb.name pa.name (pyInt (w * 100))]) := by
      rw [apply_abilities_eq, hD, applyEntries_cons, applyEntry_shield, applyEntries_nil]
      rfl
    exact ⟨(attackPhase_singleton pa pb _ _ _ _ _ _ h1 h2 hexit).2,
           (attackPhase_singleton pa pb _ _ _ _ _ _ h1 h2 hexit).1⟩

/-- C4 witness: the amended statement at the concrete attacker/defender
pair of the counterexample (scenario 2) and at a 0.5 `on_attack`
granter (scenario 1). -/
theorem hook_shield_targeting_witness :
    (attackPhase [makeParticipant heavyAttacker] 0 [makeParticipant onDefendShieldBall] 0).2.2 =
      [{ makeParticipant onDefendShieldBall with
          current_hp := (makeParticipant onDefendShieldBall).current_hp -
            appliedDamage (preShieldDamage (makeParticipant heavyAttacker))
              (makeParticipant onDefendShieldBall).shield_percent }] ∧
    (attackPhase [makeParticipant heavyAttacker] 0 [makeParticipant onDefendShieldBall] 0).2.1 =
      [{ makeParticipant heavyAttacker with
          shield_percent := max (makeParticipant heavyAttacker).shield_percent (1/2),
          extra_damage_multiplier := 1, extra_flat_damage := 0 }] :=
  (hook_shield_targeting (makeParticipant heavyAttacker)
    (makeParticipant onDefendShieldBall)).2 (1/2) rfl rfl rfl

/-! ### Teams without abilities: exact shape of an attack phase -/

/-- A participant whose ball has no ability entries on any hook. -/
def noAbilities (p : Participant) : Prop :=
  ∀ h : Hook, p.inst.countryball.capacity_logic h = []

theorem apply_abilities_noAb (w : Hook) (a : Participant) (t : Option Participant)
    (ha : noAbilities a) :
    AbilityProcessor.apply_abilities w a t = (a, t, []) := by
  rw [apply_abilities_eq, ha w, applyEntries_nil]

theorem noAbilities_dummy : noAbilities dummyParticipant := fun _ => rfl

theorem noAbilities_getP {l : List Participant} (hl : ∀ p ∈ l, noAbilities p) (i : ℕ) :
    noAbilities (getP l i) := by
  unfold getP
  cases hg : l.get? i with
  | none => exact noAbilities_dummy
  | some p => exact hl p (List.get?_mem hg)

theorem noAbilities_of_inst (q p : Participant) (h : q.inst = p.inst)
    (hp : noAbilities p) : noAbilities q := by
  intro hook
  rw [h]
  exact hp hook

theorem noAbTeam_set {l : List Participant} {q : Participant}
    (hl : ∀ p ∈ l, noAbilities p) (hq : noAbilities q) (i : ℕ) :
    ∀ p ∈ l.set i q, noAbilities p := fun p hp =>
  (List.mem_or_eq_of_mem_set hp).elim (hl p) (fun h => h ▸ hq)

theorem getP_eq_of_get? {l : List Participant} {i : ℕ} {p : Participant}
    (h : l.get? i = some p) : getP l i = p := by
  unfold getP
  rw [h]
  rfl

theorem set_get?_self : ∀ (l : List Participant) (i : ℕ) (p : Participant),
    l.get? i = some p → l.set i p = l
  | [], _, _, h => by cases h
  | x :: xs, 0, p, h => by
    injection h with h2
    rw [← h2]
    rfl
  | x :: xs, i+1, p, h => by
    simp only [List.set]
    rw [set_get?_self xs i p h]

theorem set_getP_self (l : List Participant) (i : ℕ) : l.set i (getP l i) = l := by
  cases hg : l.get? i with
  | none => exact List.set_eq_of_length_le (List.get?_eq_none.mp hg)
  | some p =>
    rw [getP_eq_of_get? hg]
    exact set_get?_self l i p hg

theorem set_set_getP (l : List Participant) (i : ℕ) (q : Participant) :
    l.set i (getP (l.set i q) i) = l.set i q := by
  by_cases h : i < l.length
  · rw [getP_eq_of_get? (List.get?_set_eq_of_lt q h)]
  · have hle := Nat.le_of_not_lt h
    rw [List.set_eq_of_length_le hle, List.set_eq_of_length_le hle]

/-- The attacker after its end-of-attack reset (lines 114-115 / 143-144). -/
def resetAttacker (pa : Participant) : Participant :=
  { pa with extra_damage_multiplier := 1, extra_flat_damage := 0 }

/-- The defender after the damage subtraction of one exchange
(line 111 / 140). -/
def struckDefender (pa pb : Participant) : Participant :=
  { pb with current_hp := pb.current_hp - appliedDamage (preShieldDamage pa) pb.shield_percent }

/-- Shape of one attack phase when neither team has any abilities: the
attacker is reset, the defender loses exactly the applied damage, and no
log line of the phase is the turn-limit line. -/
theorem attackPhase_noAb (atkTeam defTeam : List Participant) (ai di : ℕ)
    (pa pb : Participant) (hpa : atkTeam.get? ai = some pa) (hpb : defTeam.get? di = some pb)
    (hA : ∀ p ∈ atkTeam, noAbilities p) (hD : ∀ p ∈ defTeam, noAbilities p) :
    ∃ logs : List LogLine,
      attackPhase atkTeam ai defTeam di =
        (logs, atkTeam.set ai (resetAttacker pa), defTeam.set di (struckDefender pa pb)) ∧
      LogLine.turnLimit ∉ logs := by
  have h1 := apply_abilities_noAb .onAttack pa (some pb) (hA pa (List.get?_mem hpa))
  have h2 := apply_abilities_noAb .onDefend pb (some pa) (hD pb (List.get?_mem hpb))
  have hnpb3 : noAbilities (struckDefender pa pb) :=
    noAbilities_of_inst (struckDefender pa pb) pb rfl (hD pb (List.get?_mem hpb))
  simp only [attackPhase, getP_eq_of_get? hpa, getP_eq_of_get? hpb, h1, h2, Option.getD_some]
  split
  · rename_i hdead
    have h3 := apply_abilities_noAb .onExit (struckDefender pa pb)
      (some (resetAttacker pa)) hnpb3
    simp only [struckDefender, resetAttacker] at h3
    rw [h3]
    simp only [Option.getD_some, List.set_set]
    split
    · rename_i nj hnj
      have h4 := apply_abilities_noAb .onEnter
        (getP (defTeam.set di (struckDefender pa pb)) nj)
        (some (getP (atkTeam.set ai (resetAttacker pa)) ai))
        (noAbilities_getP (noAbTeam_set hD hnpb3 di) nj)
      simp only [struckDefender, resetAttacker] at h4
      rw [h4]
      simp only [Option.getD_some, set_set_getP, set_getP_self]
      refine ⟨_, rfl, ?_⟩
      split <;> simp
    · refine ⟨_, rfl, ?_⟩
      split <;> simp
  · refine ⟨_, rfl, ?_⟩
    split <;> simp

/-! ### Total positive HP and the reachability of the turn cap -/

/-- Total positive HP of a team (defeated participants count 0). -/
def sumPos (l : List Participant) : ℕ := (l.map (fun p => p.current_hp.toNat)).sum

theorem sumPos_cons (p : Participant) (l : List Participant) :
    sumPos (p :: l) = p.current_hp.toNat + sumPos l := by
  simp [sumPos]

theorem activeIdx_some_imp : ∀ {l : List Participant} {i : ℕ},
    activeIdx l = some i → ∃ p, l.get? i = some p ∧ 0 < p.current_hp := by
  intro l
  induction l with
  | nil => intro i h; cases h
  | cons x xs ih =>
    intro i h
    rw [activeIdx_cons] at h
    by_cases hx : 0 < x.current_hp
    · rw [if_pos hx] at h
      cases h
      exact ⟨x, rfl, hx⟩
    · rw [if_neg hx] at h
      cases hj : activeIdx xs with
      | none => rw [hj] at h; cases h
      | some j =>
        rw [hj] at h
        have h2 : j + 1 = i := by simpa using h
        subst h2
        obtain ⟨p, hp, hppos⟩ := ih hj
        exact ⟨p, hp, hppos⟩

theorem toNat_le_sumPos : ∀ (l : List Participant) (i : ℕ) (p : Participant),
    l.get? i = some p → p.current_hp.toNat ≤ sumPos l
  | [], _, _, h => by cases h
  | x :: xs, 0, p, h => by
    injection h with h2
    subst h2
    rw [sumPos_cons]
    omega
  | x :: xs, i+1, p, h => by
    have h1 := toNat_le_sumPos xs i p h
    rw [sumPos_cons]
    omega

theorem activeIdx_none_of_sumPos_zero {l : List Participant}
    (h : sumPos l = 0) : activeIdx l = none := by
  induction l with
  | nil => rfl
  | cons x xs ih =>
    rw [sumPos_cons] at h
    rw [activeIdx_cons, if_neg (by omega), ih (by omega)]
    rfl

theorem sumPos_set : ∀ (l : List Participant) (i : ℕ) (p q : Participant),
    l.get? i = some p →
    sumPos (l.set i q) + p.current_hp.toNat = sumPos l + q.current_hp.toNat
  | [], _, _, _, h => by cases h
  | x :: xs, 0, p, q, h => by
    injection h with h2
    subst h2
    simp only [List.set]
    rw [sumPos_cons, sumPos_cons]
    omega
  | x :: xs, i+1, p, q, h => by
    have h1 := sumPos_set xs i p q h
    simp only [List.set]
    rw [sumPos_cons, sumPos_cons]
    omega

theorem sumPos_set_lt {l : List Participant} {i : ℕ} {p q : Participant}
    (h : l.get? i = some p) (hp : 0 < p.current_hp)
    (hq : q.current_hp < p.current_hp) : sumPos (l.set i q) < sumPos l := by
  have heq := sumPos_set l i p q h
  have h1 : q.current_hp.toNat < p.current_hp.toNat := by omega
  omega

theorem sumPos_set_eq {l : List Participant} {i : ℕ} {p q : Participant}
    (h : l.get? i = some p) (hq : q.current_hp = p.current_hp) :
    sumPos (l.set i q) = sumPos l := by
  have heq := sumPos_set l i p q h
  have h1 : q.current_hp.toNat = p.current_hp.toNat := by omega
  omega

/-- The turn loop of ability-free teams never emits the turn-limit line
when the defending team's total HP budget is at most the remaining fuel:
every iteration removes at least 1 HP from team B before the cap check
can fire. -/
theorem runLoop_no_turnLimit : ∀ (fuel : ℕ) (ta tb : List Participant) (turn : ℕ),
    (∀ p ∈ ta, noAbilities p) → (∀ p ∈ tb, noAbilities p) →
    fuel + turn = 1001 → sumPos tb ≤ fuel →
    LogLine.turnLimit ∉ (runLoop fuel ta tb turn).1
  | 0, ta, tb, turn, _, _, _, _ => by simp [runLoop]
  | (fuel+1), ta, tb, turn, hA, hB, hlink, hhp => by
    simp only [runLoop]
    cases hia : activeIdx ta with
    | none => simp
    | some ai =>
      cases hib : activeIdx tb with
      | none => simp
      | some bi =>
        obtain ⟨pa, hpa, hpapos⟩ := activeIdx_some_imp hia
        obtain ⟨pb, hpb, hpbpos⟩ := activeIdx_some_imp hib
        obtain ⟨logsA, heqA, hnoA⟩ := attackPhase_noAb ta tb ai bi pa pb hpa hpb hA hB
        simp only [heqA]
        have hA1 : ∀ p ∈ ta.set ai (resetAttacker pa), noAbilities p :=
          noAbTeam_set hA (noAbilities_of_inst (resetAttacker pa) pa rfl
            (hA pa (List.get?_mem hpa))) ai
        have hB1 : ∀ p ∈ tb.set bi (struckDefender pa pb), noAbilities p :=
          noAbTeam_set hB (noAbilities_of_inst (struckDefender pa pb) pb rfl
            (hB pb (List.get?_mem hpb))) bi
        have hdrop : sumPos (tb.set bi (struckDefender pa pb)) < sumPos tb := by
          refine sumPos_set_lt hpb hpbpos ?_
          have h1 : 1 ≤ appliedDamage (preShieldDamage pa) pb.shield_percent :=
            le_max_left _ _
          show pb.current_hp - appliedDamage (preShieldDamage pa) pb.shield_percent <
            pb.current_hp
          omega
        cases hia2 : activeIdx (ta.set ai (resetAttacker pa)) with
        | none => simp [hnoA]
        | some ai2 =>
          cases hib2 : activeIdx (tb.set bi (struckDefender pa pb)) with
          | none => simp [hnoA]
          | some bi2 =>
            obtain ⟨pa2, hpa2, hpa2pos⟩ := activeIdx_some_imp hia2
            obtain ⟨pb2, hpb2, hpb2pos⟩ := activeIdx_some_imp hib2
            obtain ⟨logsB, heqB, hnoB⟩ := attackPhase_noAb
              (tb.set bi (struckDefender pa pb)) (ta.set ai (resetAttacker pa))
              bi2 ai2 pb2 pa2 hpb2 hpa2 hB1 hA1
            simp only [heqB]
            split
            · rename_i hcap
              exfalso
              have hz : sumPos (tb.set bi (struckDefender pa pb)) = 0 := by omega
              rw [activeIdx_none_of_sumPos_zero hz] at hib2
              cases hib2
            · rename_i hcap
              have hB2 : ∀ p ∈ (tb.set bi (struckDefender pa pb)).set bi2
                  (resetAttacker pb2), noAbilities p :=
                noAbTeam_set hB1 (noAbilities_of_inst (resetAttacker pb2) pb2 rfl
                  (hB1 pb2 (List.get?_mem hpb2))) bi2
              have hA2 : ∀ p ∈ (ta.set ai (resetAttacker pa)).set ai2
                  (struckDefender pb2 pa2), noAbilities p :=
                noAbTeam_set hA1 (noAbilities_of_inst (struckDefender pb2 pa2) pa2 rfl
                  (hA1 pa2 (List.get?_mem hpa2))) ai2
              have hhp2 : sumPos ((tb.set bi (struckDefender pa pb)).set bi2
                  (resetAttacker pb2)) ≤ fuel := by
                rw [sumPos_set_eq hpb2
                  (show (resetAttacker pb2).current_hp = pb2.current_hp from rfl)]
                omega
              have ih := runLoop_no_turnLimit fuel
                ((ta.set ai (resetAttacker pa)).set ai2 (struckDefender pb2 pa2))
                ((tb.set bi (struckDefender pa pb)).set bi2 (resetAttacker pb2))
                (turn + 1) hA2 hB2 (by omega) hhp2
              simp [hnoA, hnoB, ih]

theorem finalVerdict_ne_turnLimit (ta tb : List Participant) :
    finalVerdict ta tb ≠ LogLine.turnLimit := by
  rcases finalVerdict_cases ta tb with h | h | h <;> simp [h]

theorem noAbilities_make_participants {team : List BallInstance}
    (h : ∀ i ∈ team, ∀ hk : Hook, i.countryball.capacity_logic hk = []) :
    ∀ p ∈ make_participants team, noAbilities p := by
  intro p hp
  simp only [make_participants, List.mem_map] at hp
  obtain ⟨inst, hinst, rfl⟩ := hp
  intro hk
  exact h inst (List.mem_of_mem_take hinst) hk

/-- On ability-free teams the initial `on_enter` phase is a no-op, so
`run` is the loop plus the closing verdict line. -/
theorem run_noAb (b : TeamBattle) (hA : ∀ p ∈ b.team_a, noAbilities p)
    (hB : ∀ p ∈ b.team_b, noAbilities p) :
    b.run = ((runLoop 1000 b.team_a b.team_b 1).1 ++
        [finalVerdict (runLoop 1000 b.team_a b.team_b 1).2.1
          (runLoop 1000 b.team_a b.team_b 1).2.2],
      (runLoop 1000 b.team_a b.team_b 1).2.1,
      (runLoop 1000 b.team_a b.team_b 1).2.2) := by
  simp only [TeamBattle.run]
  cases hia : activeIdx b.team_a with
  | none =>
    cases hib : activeIdx b.team_b with
    | none => simp
    | some j =>
      dsimp only
      rw [apply_abilities_noAb .onEnter (getP b.team_b j) (Option.map (getP b.team_a) none)
        (noAbilities_getP hB j)]
      simp only [setAt?, set_getP_self]
      simp
  | some i =>
    cases hib : activeIdx b.team_b with
    | none =>
      dsimp only
      rw [apply_abilities_noAb .onEnter (getP b.team_a i) (Option.map (getP b.team_b) none)
        (noAbilities_getP hA i)]
      simp only [setAt?, set_getP_self]
      simp
    | some j =>
      simp only [Option.map_some']
      rw [apply_abilities_noAb .onEnter (getP b.team_a i) (some (getP b.team_b j))
        (noAbilities_getP hA i)]
      simp only [setAt?, set_getP_self]
      rw [apply_abilities_noAb .onEnter (getP b.team_b j) (some (getP b.team_a i))
        (noAbilities_getP hB j)]
      simp only [setAt?, set_getP_self]
      simp

/-- C6 (amended): the 1000-turn cap is reachable in general — see the
counterexample — but for ability-free teams whose team B has total
starting HP at most 1000, the loop exits by defeat before the cap, so
the turn-limit line never appears in the transcript. -/
theorem turn_cap_unreachable_without_abilities
    (team_a team_b : List BallInstance)
    (hA : ∀ i ∈ team_a, ∀ hk : Hook, i.countryball.capacity_logic hk = [])
    (hB : ∀ i ∈ team_b, ∀ hk : Hook, i.countryball.capacity_logic hk = [])
    (hhp : sumPos (make_participants team_b) ≤ 1000) :
    LogLine.turnLimit ∉
      (TeamBattle.run { team_a := make_participants team_a,
                        team_b := make_participants team_b }).1 := by
  have hTA := noAbilities_make_participants hA
  have hTB := noAbilities_make_participants hB
  rw [run_noAb _ hTA hTB]
  intro hmem
  rcases List.mem_append.mp hmem with h | h
  · exact runLoop_no_turnLimit 1000 _ _ 1 hTA hTB rfl hhp h
  · rw [List.mem_singleton] at h
    exact finalVerdict_ne_turnLimit _ _ h.symm

/-- C6 witness: the ability-free 1v1 battle (HP 20/ATK 5 vs HP 10/ATK 1)
never shows the turn-limit line. -/
theorem turn_cap_unreachable_witness :
    LogLine.turnLimit ∉ (plainBattle.run).1 :=
  turn_cap_unreachable_without_abilities [plainBallA] [plainBallB]
    (fun i hi _ => by rw [List.mem_singleton.mp hi]; rfl)
    (fun i hi _ => by rw [List.mem_singleton.mp hi]; rfl)
    (by decide)

/-- Ability-free ball with 2000 HP and attack 1 (team A copy). -/
def enduranceBallA : BallInstance :=
  { countryball := ⟨fun _ => []⟩, health := 2000, attack := 1, short_description := "A" }

/-- Ability-free ball with 2000 HP and attack 1 (team B copy). -/
def enduranceBallB : BallInstance :=
  { countryball := ⟨fun _ => []⟩, health := 2000, attack := 1, short_description := "B" }

/-- The 1v1 battle of the two endurance balls. -/
def enduranceBattle : TeamBattle :=
  { team_a := make_participants [enduranceBallA],
    team_b := make_participants [enduranceBallB] }

set_option maxRecDepth 400000 in
/-- C6 counterexample: two ability-free entities with positive health
(2000 HP, attack 1 each) survive 1000 full turns, so the loop hits the
cap and the turn-limit line appears in the transcript, immediately
before the draw verdict. -/
theorem turn_cap_reached_counterexample :
    (0 : ℤ) < enduranceBallA.health ∧ (0 : ℤ) < enduranceBallB.health ∧
    (enduranceBattle.run).1.reverse.take 2 = [LogLine.draw, LogLine.turnLimit] := by
  refine ⟨by norm_num [enduranceBallA], by norm_num [enduranceBallB], ?_⟩
  with_unfolding_all decide

/-! ### C5 counterexample: the cap can be hit with a one-sided verdict -/

/-- Ability-free ball with 1000 HP and attack 1. -/
def walledBallA : BallInstance :=
  { countryball := ⟨fun _ => []⟩, health := 1000, attack := 1, short_description := "A" }

/-- Ball with 2 HP, attack 1 and a full heal on its `on_defend` hook. -/
def healingTankB : BallInstance :=
  { countryball := ⟨fun h => match h with
      | .onDefend => [⟨some "heal", some 1⟩]
      | _ => []⟩,
    health := 2, attack := 1, short_description := "B" }

/-- A battle in which team A dies on the very B-attack of turn 1000. -/
def healTankBattle : TeamBattle :=
  { team_a := make_participants [walledBallA], team_b := make_participants [healingTankB] }

set_option maxRecDepth 400000 in
/-- C5 counterexample: a battle that runs into the 1000-turn cap with
team A fully defeated at that moment. The turn-limit line is emitted,
but the transcript then ends with "Team B wins!", not with the draw the
claim asserts regardless of HP state. -/
theorem turn_limit_not_draw_counterexample :
    (healTankBattle.run).1.reverse.take 2 = [LogLine.teamBWins, LogLine.turnLimit] := by
  with_unfolding_all decide

/-! ### C8: resets after an attack; shields untouched by the resolution -/

/-- A participant none of whose ability entries is a shield grant. -/
def noShieldEntries (p : Participant) : Prop :=
  ∀ hk : Hook, ∀ e ∈ p.inst.countryball.capacity_logic hk, e.type ≠ some "shield"

theorem applyEntry_no_shield (a : Participant) (t : Option Participant) (e : AbilityEntry)
    (he : e.type ≠ some "shield") :
    (applyEntry a t e).1.shield_percent = a.shield_percent ∧
    (applyEntry a t e).1.inst = a.inst ∧
    (applyEntry a t e).2.1 = t := by
  unfold applyEntry
  split_ifs with h1 h2 h3
  · exact ⟨rfl, rfl, rfl⟩
  · exact ⟨rfl, rfl, rfl⟩
  · exact ⟨rfl, rfl, rfl⟩
  · exact ⟨rfl, rfl, rfl⟩

theorem applyEntries_no_shield : ∀ (l : List AbilityEntry) (a : Participant)
    (t : Option Participant), (∀ e ∈ l, e.type ≠ some "shield") →
    (applyEntries l a t).1.shield_percent = a.shield_percent ∧
    (applyEntries l a t).1.inst = a.inst ∧
    (applyEntries l a t).2.1 = t
  | [], _, _, _ => ⟨rfl, rfl, rfl⟩
  | e :: rest, a, t, hl => by
    have h1 := applyEntry_no_shield a t e (hl e (List.mem_cons_self e rest))
    have h2 := applyEntries_no_shield rest (applyEntry a t e).1 (applyEntry a t e).2.1
      (fun x hx => hl x (List.mem_cons_of_mem _ hx))
    exact ⟨h2.1.trans h1.1, h2.2.1.trans h1.2.1, h2.2.2.trans h1.2.2⟩

theorem apply_abilities_no_shield (w : Hook) (a : Participant) (t : Option Participant)
    (ha : noShieldEntries a) :
    (AbilityProcessor.apply_abilities w a t).1.shield_percent = a.shield_percent ∧
    (AbilityProcessor.apply_abilities w a t).1.inst = a.inst ∧
    (AbilityProcessor.apply_abilities w a t).2.1 = t :=
  applyEntries_no_shield _ a t (ha w)

theorem noShieldEntries_of_inst (q p : Participant) (h : q.inst = p.inst)
    (hp : noShieldEntries p) : noShieldEntries q := by
  intro hk
  rw [h]
  exact hp hk

theorem noShieldEntries_dummy : noShieldEntries dummyParticipant := by
  intro hk e he
  simp [dummyParticipant] at he

theorem noShieldEntries_getP {l : List Participant}
    (hl : ∀ p ∈ l, noShieldEntries p) (i : ℕ) : noShieldEntries (getP l i) := by
  unfold getP
  cases hg : l.get? i with
  | none => exact noShieldEntries_dummy
  | some p => exact hl p (List.get?_mem hg)

theorem noShieldTeam_set {l : List Participant} {q : Participant}
    (hl : ∀ p ∈ l, noShieldEntries p) (hq : noShieldEntries q) (i : ℕ) :
    ∀ p ∈ l.set i q, noShieldEntries p := fun p hp =>
  (List.mem_or_eq_of_mem_set hp).elim (hl p) (fun h => h ▸ hq)

theorem getP_set_shield {l : List Participant} {i : ℕ} {q : Participant}
    (h : q.shield_percent = (getP l i).shield_percent) :
    ∀ j, (getP (l.set i q) j).shield_percent = (getP l j).shield_percent := by
  intro j
  by_cases hij : i = j
  · subst hij
    cases hg : l.get? i with
    | none =>
      unfold getP
      rw [List.get?_set, if_pos rfl, hg]
      rfl
    | some p =>
      rw [getP_eq_of_get? hg] at h
      unfold getP
      rw [List.get?_set, if_pos rfl, hg]
      simpa using h
  · unfold getP
    rw [List.get?_set, if_neg hij]

/-- C8: after a participant's own attack resolves, its
`extra_damage_multiplier` is 1 and its `extra_flat_damage` is 0 (the
end-of-attack reset), and — when no shield-granting ability entry is
involved, i.e. by the attack resolution itself — every participant's
`shield_percent` on both teams is exactly what it was before the phase:
the resolution never auto-resets or consumes a shield. -/
theorem attack_resets_mult_not_shield (atkTeam defTeam : List Participant) (ai di : ℕ)
    (hai : ai < atkTeam.length)
    (hA : ∀ p ∈ atkTeam, noShieldEntries p) (hD : ∀ p ∈ defTeam, noShieldEntries p) :
    (getP (attackPhase atkTeam ai defTeam di).2.1 ai).extra_damage_multiplier = 1 ∧
    (getP (attackPhase atkTeam ai defTeam di).2.1 ai).extra_flat_damage = 0 ∧
    (∀ j, (getP (attackPhase atkTeam ai defTeam di).2.1 j).shield_percent =
      (getP atkTeam j).shield_percent) ∧
    (∀ j, (getP (attackPhase atkTeam ai defTeam di).2.2 j).shield_percent =
      (getP defTeam j).shield_percent) := by
  have hpa0 := noShieldEntries_getP hA ai
  have hpb0 := noShieldEntries_getP hD di
  obtain ⟨pa1, t1, l1, e1⟩ : ∃ x y z,
      AbilityProcessor.apply_abilities .onAttack (getP atkTeam ai)
        (some (getP defTeam di)) = (x, y, z) := ⟨_, _, _, rfl⟩
  have f1 := apply_abilities_no_shield .onAttack (getP atkTeam ai)
    (some (getP defTeam di)) hpa0
  rw [e1] at f1
  obtain ⟨f1s, f1i, rfl⟩ := f1
  obtain ⟨pb2, t2, l2, e2⟩ : ∃ x y z,
      AbilityProcessor.apply_abilities .onDefend (getP defTeam di)
        (some pa1) = (x, y, z) := ⟨_, _, _, rfl⟩
  have f2 := apply_abilities_no_shield .onDefend (getP defTeam di) (some pa1) hpb0
  rw [e2] at f2
  obtain ⟨f2s, f2i, rfl⟩ := f2
  simp only [attackPhase, e1, Option.getD_some, e2, List.set_set]
  have hpb3 : noShieldEntries (struckDefender pa1 pb2) :=
    noShieldEntries_of_inst (struckDefender pa1 pb2) (getP defTeam di) f2i hpb0
  have hpa3s : (resetAttacker pa1).shield_percent = (getP atkTeam ai).shield_percent := f1s
  have hpb3s : (struckDefender pa1 pb2).shield_percent =
      (getP defTeam di).shield_percent := f2s
  split
  · rename_i hdead
    obtain ⟨pb4, t3, l3, e3⟩ : ∃ x y z,
        AbilityProcessor.apply_abilities .onExit (struckDefender pa1 pb2)
          (some (resetAttacker pa1)) = (x, y, z) := ⟨_, _, _, rfl⟩
    have f3 := apply_abilities_no_shield .onExit (struckDefender pa1 pb2)
      (some (resetAttacker pa1)) hpb3
    rw [e3] at f3
    obtain ⟨f3s, f3i, rfl⟩ := f3
    have e3' := e3
    simp only [struckDefender, resetAttacker] at e3'
    simp only [e3', Option.getD_some, List.set_set]
    have hpb4 : noShieldEntries pb4 :=
      noShieldEntries_of_inst pb4 (getP defTeam di) (f3i.trans f2i) hpb0
    have hpb4s : pb4.shield_percent = (getP defTeam di).shield_percent := f3s.trans f2s
    split
    · rename_i nj hnj
      obtain ⟨pnd, t4, l4, e4⟩ : ∃ x y z,
          AbilityProcessor.apply_abilities .onEnter (getP (defTeam.set di pb4) nj)
            (some (getP (atkTeam.set ai (resetAttacker pa1)) ai)) = (x, y, z) :=
        ⟨_, _, _, rfl⟩
      have f4 := apply_abilities_no_shield .onEnter (getP (defTeam.set di pb4) nj)
        (some (getP (atkTeam.set ai (resetAttacker pa1)) ai))
        (noShieldEntries_getP (noShieldTeam_set hD hpb4 di) nj)
      rw [e4] at f4
      obtain ⟨f4s, _, rfl⟩ := f4
      have e4' := e4
      simp only [resetAttacker] at e4'
      simp only [e4', Option.getD_some, set_set_getP]
      refine ⟨?_, ?_, ?_, ?_⟩
      · rw [getP_eq_of_get? (List.get?_set_eq_of_lt _ hai)]
      · rw [getP_eq_of_get? (List.get?_set_eq_of_lt _ hai)]
      · intro j
        exact getP_set_shield hpa3s j
      · intro j
        exact (getP_set_shield f4s j).trans (getP_set_shield hpb4s j)
    · refine ⟨?_, ?_, ?_, ?_⟩
      · rw [getP_eq_of_get? (List.get?_set_eq_of_lt _ hai)]
      · rw [getP_eq_of_get? (List.get?_set_eq_of_lt _ hai)]
      · intro j
        exact getP_set_shield hpa3s j
      · intro j
        exact getP_set_shield hpb4s j
  · refine ⟨?_, ?_, ?_, ?_⟩
    · rw [getP_eq_of_get? (List.get?_set_eq_of_lt _ hai)]
    · rw [getP_eq_of_get? (List.get?_set_eq_of_lt _ hai)]
    · intro j
      exact getP_set_shield hpa3s j
    · intro j
      exact getP_set_shield hpb3s j

/-- C8 witness: a heal-only attacker against an ability-free defender. -/
theorem attack_resets_mult_not_shield_witness :
    (getP (attackPhase [partialHpHealActor] 0
      [makeParticipant plainBallB] 0).2.1 0).extra_damage_multiplier = 1 ∧
    (getP (attackPhase [partialHpHealActor] 0
      [makeParticipant plainBallB] 0).2.1 0).extra_flat_damage = 0 ∧
    (∀ j, (getP (attackPhase [partialHpHealActor] 0
        [makeParticipant plainBallB] 0).2.1 j).shield_percent =
      (getP [partialHpHealActor] j).shield_percent) ∧
    (∀ j, (getP (attackPhase [partialHpHealActor] 0
        [makeParticipant plainBallB] 0).2.2 j).shield_percent =
      (getP [makeParticipant plainBallB] j).shield_percent) :=
  attack_resets_mult_not_shield [partialHpHealActor] [makeParticipant plainBallB] 0 0
    (by decide)
    (fun p hp => by
      rw [List.mem_singleton.mp hp]
      intro hk e he
      rw [List.mem_singleton.mp he]
      decide)
    (fun p hp => by
      rw [List.mem_singleton.mp hp]
      intro hk e he
      simp [makeParticipant, plainBallB] at he)

/-! ### C10: current_hp never exceeds max_hp -/

/-- The HP invariant of a participant. -/
def hpInv (p : Participant) : Prop := p.current_hp ≤ p.max_hp

/-- The HP invariant on an optional participant. -/
def hpInvO : Option Participant → Prop
  | none => True
  | some p => hpInv p

theorem applyEntry_hpInv (a : Participant) (t : Option Participant) (e : AbilityEntry)
    (ha : hpInv a) (ht : hpInvO t) :
    hpInv (applyEntry a t e).1 ∧ hpInvO (applyEntry a t e).2.1 := by
  unfold applyEntry
  split_ifs
  · exact ⟨ha, ht⟩
  · exact ⟨ha, ht⟩
  · exact ⟨min_le_right _ _, ht⟩
  · cases t with
    | none => exact ⟨ha, trivial⟩
    | some x => exact ⟨ha, ht⟩
  · exact ⟨ha, ht⟩

theorem applyEntries_hpInv : ∀ (l : List AbilityEntry) (a : Participant)
    (t : Option Participant), hpInv a → hpInvO t →
    hpInv (applyEntries l a t).1 ∧ hpInvO (applyEntries l a t).2.1
  | [], _, _, ha, ht => ⟨ha, ht⟩
  | e :: rest, a, t, ha, ht => by
    have h1 := applyEntry_hpInv a t e ha ht
    exact applyEntries_hpInv rest (applyEntry a t e).1 (applyEntry a t e).2.1 h1.1 h1.2

theorem apply_abilities_hpInv (w : Hook) (a : Participant) (t : Option Participant)
    (ha : hpInv a) (ht : hpInvO t) :
    hpInv (AbilityProcessor.apply_abilities w a t).1 ∧
    hpInvO (AbilityProcessor.apply_abilities w a t).2.1 :=
  applyEntries_hpInv _ a t ha ht

theorem hpInv_dummy : hpInv dummyParticipant := le_refl 0

theorem hpInv_getP {l : List Participant} (hl : ∀ p ∈ l, hpInv p) (i : ℕ) :
    hpInv (getP l i) := by
  unfold getP
  cases hg : l.get? i with
  | none => exact hpInv_dummy
  | some p => exact hl p (List.get?_mem hg)

theorem hpInvT_set {l : List Participant} {q : Participant}
    (hl : ∀ p ∈ l, hpInv p) (hq : hpInv q) (i : ℕ) :
    ∀ p ∈ l.set i q, hpInv p := fun p hp =>
  (List.mem_or_eq_of_mem_set hp).elim (hl p) (fun h => h ▸ hq)

theorem hpInv_getD {o : Option Participant} {d : Participant}
    (ho : hpInvO o) (hd : hpInv d) : hpInv (o.getD d) := by
  cases o with
  | none => exact hd
  | some x => exact ho

/-- One attack phase preserves the HP invariant on both teams: heals
clamp at `max_hp` and damage only lowers `current_hp`. -/
theorem attackPhase_hpInv (atkTeam defTeam : List Participant) (ai di : ℕ)
    (hA : ∀ p ∈ atkTeam, hpInv p) (hD : ∀ p ∈ defTeam, hpInv p) :
    (∀ p ∈ (attackPhase atkTeam ai defTeam di).2.1, hpInv p) ∧
    (∀ p ∈ (attackPhase atkTeam ai defTeam di).2.2, hpInv p) := by
  obtain ⟨pa1, t1, l1, e1⟩ : ∃ x y z,
      AbilityProcessor.apply_abilities .onAttack (getP atkTeam ai)
        (some (getP defTeam di)) = (x, y, z) := ⟨_, _, _, rfl⟩
  have f1 := apply_abilities_hpInv .onAttack (getP atkTeam ai) (some (getP defTeam di))
    (hpInv_getP hA ai) (hpInv_getP hD di)
  rw [e1] at f1
  obtain ⟨pb2, t2, l2, e2⟩ : ∃ x y z,
      AbilityProcessor.apply_abilities .onDefend (t1.getD (getP defTeam di))
        (some pa1) = (x, y, z) := ⟨_, _, _, rfl⟩
  have f2 := apply_abilities_hpInv .onDefend (t1.getD (getP defTeam di)) (some pa1)
    (hpInv_getD f1.2 (hpInv_getP hD di)) f1.1
  rw [e2] at f2
  have hpa3 : hpInv (resetAttacker (t2.getD pa1)) := hpInv_getD f2.2 f1.1
  have hpb3 : hpInv (struckDefender pa1 pb2) := by
    have hd : 1 ≤ appliedDamage (preShieldDamage pa1) pb2.shield_percent := le_max_left _ _
    have h2 := f2.1
    dsimp only at h2
    unfold hpInv at h2 ⊢
    unfold struckDefender
    simp only
    omega
  simp only [attackPhase, e1, e2]
  split
  · rename_i hdead
    obtain ⟨pb4, t3, l3, e3⟩ : ∃ x y z,
        AbilityProcessor.apply_abilities .onExit (struckDefender pa1 pb2)
          (some (resetAttacker (t2.getD pa1))) = (x, y, z) := ⟨_, _, _, rfl⟩
    have f3 := apply_abilities_hpInv .onExit (struckDefender pa1 pb2)
      (some (resetAttacker (t2.getD pa1))) hpb3 hpa3
    rw [e3] at f3
    have e3' := e3
    simp only [struckDefender, resetAttacker] at e3'
    simp only [e3', List.set_set]
    have hX : hpInv (t3.getD (resetAttacker (t2.getD pa1))) := hpInv_getD f3.2 hpa3
    have hAtk2 : ∀ p ∈ atkTeam.set ai (t3.getD (resetAttacker (t2.getD pa1))), hpInv p :=
      hpInvT_set hA hX ai
    have hDef2 : ∀ p ∈ defTeam.set di pb4, hpInv p := hpInvT_set hD f3.1 di
    split
    · rename_i nj hnj
      obtain ⟨pnd, t4, l4, e4⟩ : ∃ x y z,
          AbilityProcessor.apply_abilities .onEnter (getP (defTeam.set di pb4) nj)
            (some (getP (atkTeam.set ai (t3.getD (resetAttacker (t2.getD pa1)))) ai)) =
            (x, y, z) := ⟨_, _, _, rfl⟩
      have f4 := apply_abilities_hpInv .onEnter (getP (defTeam.set di pb4) nj)
        (some (getP (atkTeam.set ai (t3.getD (resetAttacker (t2.getD pa1)))) ai))
        (hpInv_getP hDef2 nj) (hpInv_getP hAtk2 ai)
      rw [e4] at f4
      have e4' := e4
      simp only [struckDefender, resetAttacker] at e4'
      simp only [e4', List.set_set]
      constructor
      · exact hpInvT_set hA (hpInv_getD f4.2 (hpInv_getP hAtk2 ai)) ai
      · exact hpInvT_set hDef2 f4.1 nj
    · exact ⟨hAtk2, hDef2⟩
  · constructor
    · exact hpInvT_set hA hpa3 ai
    · exact hpInvT_set hD hpb3 di

theorem hpInvT_setAt? {l : List Participant} (hl : ∀ p ∈ l, hpInv p)
    (i? : Option ℕ) (p? : Option Participant) (hp : hpInvO p?) :
    ∀ q ∈ setAt? l i? p?, hpInv q := by
  cases i? with
  | none => exact hl
  | some i =>
    cases p? with
    | none => exact hl
    | some p => exact hpInvT_set hl hp i

theorem runLoop_hpInv : ∀ (fuel : ℕ) (ta tb : List Participant) (turn : ℕ),
    (∀ p ∈ ta, hpInv p) → (∀ p ∈ tb, hpInv p) →
    (∀ p ∈ (runLoop fuel ta tb turn).2.1, hpInv p) ∧
    (∀ p ∈ (runLoop fuel ta tb turn).2.2, hpInv p)
  | 0, ta, tb, turn, hA, hB => ⟨hA, hB⟩
  | (fuel+1), ta, tb, turn, hA, hB => by
    simp only [runLoop]
    cases hia : activeIdx ta with
    | none => exact ⟨hA, hB⟩
    | some ai =>
      cases hib : activeIdx tb with
      | none =>
        dsimp only
        exact ⟨hA, hB⟩
      | some bi =>
        dsimp only
        have h1 := attackPhase_hpInv ta tb ai bi hA hB
        cases hia2 : activeIdx (attackPhase ta ai tb bi).2.1 with
        | none =>
          dsimp only
          exact h1
        | some ai2 =>
          cases hib2 : activeIdx (attackPhase ta ai tb bi).2.2 with
          | none =>
            dsimp only
            exact h1
          | some bi2 =>
            dsimp only
            have h2 := attackPhase_hpInv (attackPhase ta ai tb bi).2.2
              (attackPhase ta ai tb bi).2.1 bi2 ai2 h1.2 h1.1
            split
            · exact ⟨h2.2, h2.1⟩
            · exact runLoop_hpInv fuel _ _ (turn + 1) h2.2 h2.1

theorem run_hpInv (b : TeamBattle) (hA : ∀ p ∈ b.team_a, hpInv p)
    (hB : ∀ p ∈ b.team_b, hpInv p) :
    (∀ p ∈ (b.run).2.1, hpInv p) ∧ (∀ p ∈ (b.run).2.2, hpInv p) := by
  simp only [TeamBattle.run]
  cases hia : activeIdx b.team_a with
  | none =>
    cases hib : activeIdx b.team_b with
    | none => exact runLoop_hpInv 1000 _ _ 1 hA hB
    | some j =>
      dsimp only
      have f2 := apply_abilities_hpInv .onEnter (getP b.team_b j)
        (Option.map (getP b.team_a) none) (hpInv_getP hB j) trivial
      exact runLoop_hpInv 1000 _ _ 1
        (hpInvT_setAt? hA none _ f2.2) (hpInvT_set hB f2.1 j)
  | some i =>
    cases hib : activeIdx b.team_b with
    | none =>
      dsimp only
      have f1 := apply_abilities_hpInv .onEnter (getP b.team_a i)
        (Option.map (getP b.team_b) none) (hpInv_getP hA i) trivial
      exact runLoop_hpInv 1000 _ _ 1
        (hpInvT_set hA f1.1 i) (hpInvT_setAt? hB none _ f1.2)
    | some j =>
      dsimp only
      have f1 := apply_abilities_hpInv .onEnter (getP b.team_a i)
        (Option.map (getP b.team_b) (some j)) (hpInv_getP hA i) (hpInv_getP hB j)
      have hTA1 : ∀ p ∈ b.team_a.set i (AbilityProcessor.apply_abilities .onEnter
          (getP b.team_a i) (Option.map (getP b.team_b) (some j))).1, hpInv p :=
        hpInvT_set hA f1.1 i
      have hTB1 := hpInvT_setAt? hB (some j) _ f1.2
      have f2 := apply_abilities_hpInv .onEnter
        (getP (setAt? b.team_b (some j) (AbilityProcessor.apply_abilities .onEnter
          (getP b.team_a i) (Option.map (getP b.team_b) (some j))).2.1) j)
        (Option.map (getP (b.team_a.set i (AbilityProcessor.apply_abilities .onEnter
          (getP b.team_a i) (Option.map (getP b.team_b) (some j))).1)) (some i))
        (hpInv_getP hTB1 j) (hpInv_getP hTA1 i)
      exact runLoop_hpInv 1000 _ _ 1
        (hpInvT_setAt? hTA1 (some i) _ f2.2) (hpInvT_set hTB1 f2.1 j)

theorem init_inv {team_a team_b : List BallInstance} {b : TeamBattle}
    (h : TeamBattle.init team_a team_b = Except.ok b) :
    b.team_a = make_participants team_a ∧ b.team_b = make_participants team_b := by
  unfold TeamBattle.init at h
  split at h
  · cases h
  · injection h with h2
    rw [← h2]
    exact ⟨rfl, rfl⟩

theorem hpInv_make_participants (team : List BallInstance) :
    ∀ p ∈ make_participants team, hpInv p := by
  intro p hp
  simp only [make_participants, List.mem_map] at hp
  obtain ⟨inst, _, rfl⟩ := hp
  exact le_refl _

/-- C10: every participant starts with `current_hp = max_hp`; every
ability application preserves `current_hp ≤ max_hp` (heals clamp at
`max_hp`, nothing else raises HP), and consequently at the end of a
whole battle every participant of both teams still satisfies
`current_hp ≤ max_hp`. -/
theorem current_hp_le_max_hp :
    (∀ (w : Hook) (a : Participant) (t : Option Participant),
      hpInv a → hpInvO t →
      hpInv (AbilityProcessor.apply_abilities w a t).1 ∧
      hpInvO (AbilityProcessor.apply_abilities w a t).2.1) ∧
    ∀ (team_a team_b : List BallInstance) (b : TeamBattle),
      TeamBattle.init team_a team_b = Except.ok b →
      (∀ p ∈ b.team_a, hpInv p) ∧ (∀ p ∈ b.team_b, hpInv p) ∧
      (∀ p ∈ (b.run).2.1, hpInv p) ∧ (∀ p ∈ (b.run).2.2, hpInv p) := by
  refine ⟨apply_abilities_hpInv, ?_⟩
  intro team_a team_b b h
  obtain ⟨ha, hb⟩ := init_inv h
  have hA : ∀ p ∈ b.team_a, hpInv p := ha ▸ hpInv_make_participants team_a
  have hB : ∀ p ∈ b.team_b, hpInv p := hb ▸ hpInv_make_participants team_b
  exact ⟨hA, hB, run_hpInv b hA hB⟩

/-- C10 witness: the heal-only actor at 4/10 HP, and the concrete 1v1
battle of the ability-free balls. -/
theorem current_hp_le_max_hp_witness :
    hpInv (AbilityProcessor.apply_abilities .onEnter partialHpHealActor none).1 ∧
    ∀ p ∈ (plainBattle.run).2.1, hpInv p :=
  ⟨(current_hp_le_max_hp.1 .onEnter partialHpHealActor none
      (by decide : partialHpHealActor.current_hp ≤ partialHpHealActor.max_hp)
      trivial).1,
   (current_hp_le_max_hp.2 [plainBallA] [plainBallB] plainBattle rfl).2.2.1⟩

end Ballsdex
